import Mathlib

/-!
Verification of the s3backup core (src/s3backup/backups.py) against its
natural-language specification.

The Python module is shallowly embedded as follows.

* An S3 bucket listing is a `List BucketObject` in the order the backend
  returns it; `BucketObject` carries the metadata fields the source copies
  out of a raw listing entry (`modified`, `filename`, `etag`, `size`), with
  the `LastModified` timestamp modeled as a natural number.
* The boto3 client is an external collaborator: `list_objects` is modeled
  as returning the current listing, `delete_objects` as removing the named
  keys from the listing, `download_file` as a write into a local file map,
  and `upload_file` as appending an object to the listing.
* The local filesystem is a finite map from paths (lists of name
  components) to file data; directories are implicit.  A gzip tar archive
  is modeled by its member list (member path and byte contents), since
  `tarfile` is an external collaborator assumed to round-trip.
* Python exceptions become explicit error values; a `with` block becomes a
  function that runs the body and then unconditionally runs the exit
  action, propagating the body error.
-/

/-- A path on the local filesystem or inside a tar archive, as components. -/
abbrev FilePath1 := List String

/-- File contents, as a byte list. -/
abbrev Bytes := List Nat

/-- BucketObject (backups.py lines 321-334): the metadata of one s3 object.
The source maps LastModified to modified, Key to filename, plus etag and
size, and makes the record immutable; we model it as an immutable structure
with the timestamp as a natural number. -/
structure BucketObject where
  modified : Nat
  filename : String
  etag : String
  size : Nat
deriving DecidableEq, Repr

/-- Collection.filenames (backups.py line 283): the filenames of the
objects, in order. -/
def Collection.filenames (objects : List BucketObject) : List String :=
  objects.map (fun o => o.filename)

/-- The ordering used by Collection.ordered with order_by equal to
modified and desc equal to true: object a precedes object b when the
modified timestamp of b is at most that of a. -/
def modGE (a b : BucketObject) : Prop := b.modified ≤ a.modified

instance : DecidableRel modGE := fun a b => Nat.decLe b.modified a.modified

instance : IsTotal BucketObject modGE :=
  ⟨fun a b => Nat.le_total b.modified a.modified⟩

instance : IsTrans BucketObject modGE :=
  ⟨fun _ _ _ h1 h2 => Nat.le_trans h2 h1⟩

/-- Collection.ordered (backups.py lines 297-302) with the arguments used
by _prune_bucket: sorted(objects, key = modified, reverse = True).  The
Python sort is stable, so a stable insertion sort with the descending
relation produces the same list. -/
def Collection.ordered (objects : List BucketObject) : List BucketObject :=
  List.insertionSort modGE objects

/-- Whether the character list pat is a prefix of the character list s. -/
def charsStartWith : List Char → List Char → Bool
  | [], _ => true
  | _ :: _, [] => false
  | p :: ps, c :: cs => p == c && charsStartWith ps cs

/-- Whether pat occurs as a contiguous substring of s. -/
def charsContain (pat : List Char) : List Char → Bool
  | [] => charsStartWith pat []
  | c :: cs => charsStartWith pat (c :: cs) || charsContain pat cs

/-- The Python membership test pattern in filename: whether pat occurs as
a substring of s. -/
def strContainsSub (s pat : String) : Bool :=
  charsContain pat.data s.data

/-- One iteration of the loop of _prune_bucket (backups.py lines 444-448):
from the ordered listing, keep the objects whose filename contains the
pattern, and if they number more than retain, the tail after the first
retain entries is passed to delete; otherwise no delete call is made. -/
def prunePatternOverflow (objects : List BucketObject) (retain : Nat)
    (pattern : String) : List BucketObject :=
  let objects_by_pattern := objects.filter (fun o => strContainsSub o.filename pattern)
  if objects_by_pattern.length > retain then objects_by_pattern.drop retain else []

/-- The for-loop of _prune_bucket: the concatenation of the per-pattern
delete batches, in pattern order. -/
def concatBatches (f : String → List BucketObject) : List String → List BucketObject
  | [] => []
  | p :: ps => f p ++ concatBatches f ps

/-- BackupStore._prune_bucket (backups.py lines 441-448), as the list of
objects it passes to delete: order the listing by modified descending,
and if the listing is non-empty, for each pattern delete the overflow
beyond the first retain matching objects. -/
def BackupStore.pruneBucketDeletions (listing : List BucketObject) (retain : Nat)
    (patterns : List String) : List BucketObject :=
  let objects := Collection.ordered listing
  if objects.isEmpty then []
  else concatBatches (prunePatternOverflow objects retain) patterns

/-- BackupStore.delete (backups.py lines 423-439) sends the filenames of
the collection as the keys to delete; the remote bucket state afterwards
is the listing without those keys.  applyPruneBucket is the bucket state
after _prune_bucket has issued all of its delete calls. -/
def BackupStore.applyPruneBucket (listing : List BucketObject) (retain : Nat)
    (patterns : List String) : List BucketObject :=
  let ks := Collection.filenames (BackupStore.pruneBucketDeletions listing retain patterns)
  listing.filter (fun o => !(ks.contains o.filename))

/-- The default patterns argument of _prune_bucket (backups.py line 441). -/
def defaultPatterns : List String := ["deb", "tar.gz"]

example : strContainsSub "app_17.tar.gz" "tar.gz" = true := by decide
example : strContainsSub "app.tgz" "tar.gz" = false := by decide
example : Collection.ordered
    [⟨3, "a", "", 0⟩, ⟨7, "b", "", 0⟩, ⟨5, "c", "", 0⟩] =
    [⟨7, "b", "", 0⟩, ⟨5, "c", "", 0⟩, ⟨3, "a", "", 0⟩] := by decide
example : BackupStore.pruneBucketDeletions
    [⟨3, "a.tar.gz", "", 0⟩, ⟨7, "b.tar.gz", "", 0⟩, ⟨5, "c.tar.gz", "", 0⟩]
    2 defaultPatterns = [⟨3, "a.tar.gz", "", 0⟩] := by decide
example : BackupStore.applyPruneBucket
    [⟨3, "a.tar.gz", "", 0⟩, ⟨7, "b.tar.gz", "", 0⟩, ⟨5, "c.tar.gz", "", 0⟩]
    2 defaultPatterns = [⟨7, "b.tar.gz", "", 0⟩, ⟨5, "c.tar.gz", "", 0⟩] := by decide

/-- BackupStore.LATEST (backups.py line 359), the sentinel download target. -/
def LATEST : String := "backups.latest"

/-- The errors download can raise: EnvironmentError when the bucket
appears to be empty (the EmptyStoreError of the spec taxonomy),
ValueError when the target is not the sentinel and no filename was given
(InvalidArgument), and the re-raised botocore ClientError (StoreError). -/
inductive DownloadError where
  | emptyStore
  | invalidTarget
  | clientError
deriving DecidableEq, Repr

/-- The filename resolution of BackupStore.download (backups.py lines
381-389): for the LATEST sentinel take the last element of the filenames
of the listing, raising on an empty listing; otherwise require an
explicit as_filename. -/
def BackupStore.resolveDownloadFilename (listing : List BucketObject)
    (target : String) (asFilename : Option String) : Except DownloadError String :=
  if target = LATEST then
    match (Collection.filenames listing).getLast? with
    | some f => .ok f
    | none => .error .emptyStore
  else
    match asFilename with
    | some f => .ok f
    | none => .error .invalidTarget

/-- Lookup in an association list by key, first match wins. -/
def assocLookup {κ β : Type} [BEq κ] : List (κ × β) → κ → Option β
  | [], _ => none
  | (k, v) :: rest, key => if k == key then some v else assocLookup rest key

/-- Write a file into a local file map, replacing any previous entry. -/
def writeFile {β : Type} (world : List (FilePath1 × β)) (p : FilePath1) (d : β) :
    List (FilePath1 × β) :=
  (p, d) :: world.filter (fun q => !(q.1 == p))

/-- Remove a file from a local file map. -/
def removeFile {β : Type} (world : List (FilePath1 × β)) (p : FilePath1) :
    List (FilePath1 × β) :=
  world.filter (fun q => !(q.1 == p))

/-- BackupStore.download (backups.py lines 371-398).  The remote blob
store maps keys to blobs; the local filesystem maps paths to blobs.
After resolving the filename, the object with that key is fetched and
written to localpath joined with the filename; resolution errors are
raised before any write, and a missing key is the ClientError path of
download_file.  Returns the result (the local path, as the source
returns it) together with the filesystem after the call. -/
def BackupStore.download {β : Type} (listing : List BucketObject)
    (blobs : List (String × β)) (world : List (FilePath1 × β))
    (target : String) (localpath : FilePath1) (asFilename : Option String) :
    Except DownloadError FilePath1 × List (FilePath1 × β) :=
  match BackupStore.resolveDownloadFilename listing target asFilename with
  | .error e => (.error e, world)
  | .ok filename =>
      let localFile := localpath ++ [filename]
      match assocLookup blobs filename with
      | none => (.error .clientError, world)
      | some b => (.ok localFile, writeFile world localFile b)

/-- The truthiness test of the Python line if self._retain (backups.py
line 414): the configured retain count is absent (None) or an integer,
and only a present non-zero count is truthy. -/
def pyTruthyNat : Option Nat → Bool
  | none => false
  | some n => n != 0

/-- BackupStore.upload (backups.py lines 400-415), at the level of the
bucket listing: the uploaded file appears as a new object in the
listing, and if the configured retain count is truthy, _prune_bucket is
run with it before upload returns. -/
def BackupStore.upload (retainCfg : Option Nat) (patterns : List String)
    (listing : List BucketObject) (newObj : BucketObject) : List BucketObject :=
  let listing1 := listing ++ [newObj]
  if pyTruthyNat retainCfg then
    BackupStore.applyPruneBucket listing1 (retainCfg.getD 0) patterns
  else listing1

/-- Whether the first path is a prefix of (or equal to) the second. -/
def pathIsUnder : FilePath1 → FilePath1 → Bool
  | [], _ => true
  | _ :: _, [] => false
  | a :: as, b :: bs => a == b && pathIsUnder as bs

/-- shutil.rmtree on a set of existing paths: every path at or below the
removed root disappears. -/
def shutilRmtree (fsPaths : List FilePath1) (root : FilePath1) : List FilePath1 :=
  fsPaths.filter (fun q => !(pathIsUnder root q))

/-- The outcome of running a block under StagingContext: the surviving
local paths, the propagated exception of the body if any, and the
directories the context manager created. -/
structure StagingRun where
  fsPaths : List FilePath1
  err : Option String
  created : List FilePath1
deriving DecidableEq, Repr

/-- StagingContext (backups.py lines 84-100) used as a context manager.
_initialize joins the temp root with a random numeric name (the name is
a parameter here) and creates that directory; the body then runs, and
whether or not it raised, exit runs shutil.rmtree on the workspace, after
which the body exception propagates. -/
def withStagingContext (fsPaths : List FilePath1) (tmpdir : FilePath1)
    (dirName : String)
    (body : FilePath1 → List FilePath1 → List FilePath1 × Option String) :
    StagingRun :=
  let ws := tmpdir ++ [dirName]
  let fs1 := ws :: fsPaths
  let run := body ws fs1
  { fsPaths := shutilRmtree run.1 ws, err := run.2, created := [ws] }

/-- The body of BackupHandler.backup (backups.py lines 196-200) as it
touches the local filesystem: stage copies the selected files under the
workspace, compress writes the archive next to them, upload writes
nothing locally.  Each step may raise (the injected error values), and a
raise skips the remaining steps. -/
def BackupHandler.backupFsBody (stagedRel : List FilePath1) (tarName : String)
    (stageErr compressErr uploadErr : Option String)
    (ws : FilePath1) (fs : List FilePath1) : List FilePath1 × Option String :=
  let fsStaged := stagedRel.map (fun p => ws ++ p) ++ fs
  match stageErr with
  | some e => (fsStaged, some e)
  | none =>
      let fsTar := (ws ++ [tarName]) :: fsStaged
      match compressErr with
      | some e => (fsTar, some e)
      | none => (fsTar, uploadErr)

/-- BackupHandler.backup (backups.py lines 193-200) at the level of the
local filesystem: the whole stage, compress, upload sequence runs inside
with StagingContext() as stage. -/
def BackupHandler.backupFs (fsPaths : List FilePath1) (tmpdir : FilePath1)
    (dirName : String) (stagedRel : List FilePath1) (tarName : String)
    (stageErr compressErr uploadErr : Option String) : StagingRun :=
  withStagingContext fsPaths tmpdir dirName
    (BackupHandler.backupFsBody stagedRel tarName stageErr compressErr uploadErr)

/-- BackupHandler.prune (backups.py lines 202-205): it opens a
StagingContext whose body only calls _prune_bucket on the store, so the
body changes no local path and raises nothing; the bucket listing is
pruned as by applyPruneBucket. -/
def BackupHandler.pruneRun (fsPaths : List FilePath1) (tmpdir : FilePath1)
    (dirName : String) (listing : List BucketObject) (retain : Nat)
    (patterns : List String) : StagingRun × List BucketObject :=
  (withStagingContext fsPaths tmpdir dirName (fun _ fs => (fs, none)),
   BackupStore.applyPruneBucket listing retain patterns)

example : BackupStore.resolveDownloadFilename [] LATEST none = .error .emptyStore := by rfl
example : BackupStore.resolveDownloadFilename
    [⟨3, "a", "", 0⟩, ⟨7, "b", "", 0⟩] LATEST none = .ok "b" := by rfl
example : (BackupHandler.backupFs [["data", "app"]] ["tmp"] "123" [["app", "f.txt"]]
    "app.tgz" none (some "disk full") none).fsPaths = [["data", "app"]] := by decide

/-- All suffixes of a character list, longest first. -/
def charSuffixes : List Char → List (List Char)
  | [] => [[]]
  | c :: cs => (c :: cs) :: charSuffixes cs

/-- Matching of one glob pattern component against one entry name, with
the wildcard star matching any run of characters (any suffix continues
the match) and the question mark matching one character (character
classes are not used by this program). -/
def globStar : List Char → List Char → Bool
  | [], s => s.isEmpty
  | '*' :: ps, s => (charSuffixes s).any (fun t => globStar ps t)
  | p :: ps, s =>
      match s with
      | [] => false
      | c :: cs => (p == '?' || p == c) && globStar ps cs

/-- glob.glob pattern matching against a directory entry name: a name
with a leading dot is hidden and is only matched when the pattern itself
starts with a literal dot. -/
def globMatchEntry (pattern name : String) : Bool :=
  match name.data with
  | '.' :: _ =>
      match pattern.data with
      | '.' :: _ => globStar pattern.data name.data
      | _ => false
  | _ => globStar pattern.data name.data

/-- StagingContext.stage on a directory target (backups.py lines 102-135),
at the level of the file map of the target tree: includes defaults to the
single match-all pattern, each include selects the direct entries of the
target whose name matches it, and every selected entry is copied into the
workspace at its path relative to the target (copy_tree for directories,
copy2 for files), preserving contents.  The result is the staged file
map, with paths relative to the staged subtree root. -/
def StagingContext.stageSelect (files : List (FilePath1 × Bytes))
    (includes : Option (List String)) : List (FilePath1 × Bytes) :=
  let pats := includes.getD ["*"]
  files.filter (fun f =>
    match f.1 with
    | [] => false
    | n :: _ => pats.any (fun pat => globMatchEntry pat n))

/-- StagingContext.compress (backups.py lines 137-149) as the member list
of the produced tar archive: tar.add(self.targetpath, arcname =
self.target_name) roots every member at the staged subtree base name. -/
def StagingContext.compressMembers (targetName : String)
    (staged : List (FilePath1 × Bytes)) : List (FilePath1 × Bytes) :=
  staged.map (fun f => (targetName :: f.1, f.2))

/-- The archive filename chosen by compress: rename_to if given, else the
staged subtree base name with the tgz extension. -/
def StagingContext.tarName (targetName : String) (renameTo : Option String) : String :=
  match renameTo with
  | some n => n
  | none => targetName ++ ".tgz"

/-- The data a local file can hold: raw bytes, or a tar.gz blob modeled
by its member list (tarfile is assumed to round-trip members). -/
inductive FileData where
  | raw (b : Bytes)
  | archive (members : List (FilePath1 × Bytes))
deriving DecidableEq, Repr

/-- Whether a path names an existing regular file in the local file map
(os.path.isfile; directories are implicit in the map and are not files). -/
def isFile (world : List (FilePath1 × FileData)) (p : FilePath1) : Bool :=
  (assocLookup world p).isSome

/-- The errors restore can raise beyond download errors: tarfile.open
fails on a path that is missing or does not hold a tar archive (in
particular on an empty temporary file). -/
inductive RestoreError where
  | downloadFailed (e : DownloadError)
  | tarOpenFailed
deriving DecidableEq, Repr

/-- The directory resolution of BackupHandler.extract (backups.py lines
240-241): if the given path is not an existing regular file it is
replaced by its dirname, that is its parent. -/
def BackupHandler.extractDirResolve (world : List (FilePath1 × FileData))
    (directory : FilePath1) : FilePath1 :=
  if isFile world directory then directory else directory.dropLast

/-- BackupHandler.extract (backups.py lines 238-244): resolve the
directory, open the tar at tarpath and extract every member under the
resolved directory (extractall, later members overwriting earlier ones). -/
def BackupHandler.extractRun (world : List (FilePath1 × FileData))
    (tarpath directory : FilePath1) :
    Except RestoreError (List (FilePath1 × FileData)) :=
  let dir := BackupHandler.extractDirResolve world directory
  match assocLookup world tarpath with
  | none => .error .tarOpenFailed
  | some (.raw _) => .error .tarOpenFailed
  | some (.archive ms) =>
      .ok (ms.foldl (fun w m => writeFile w (dir ++ m.1) (.raw m.2)) world)

/-- BackupHandler.backup (backups.py lines 193-200) starting from an
empty store, at the level of the remote state it produces.  The staged
subtree base name is the last component of the resolved backup target;
the staged files are selected by stageSelect; compress produces the
archive named tarName; upload stores it under that key (the configured
store path defaults to the empty string, under which os.path.join leaves
the target name unchanged) and, the store having been built without a
retain count, performs no pruning.  The result is the bucket listing and
the blob store after the call, the upload timestamp being now. -/
def BackupHandler.backupPipeline (targetPath : FilePath1)
    (files : List (FilePath1 × Bytes)) (includes : Option (List String))
    (renameTo : Option String) (now : Nat) :
    List BucketObject × List (String × FileData) :=
  let targetName := targetPath.getLastD ""
  let staged := StagingContext.stageSelect files includes
  let members := StagingContext.compressMembers targetName staged
  let tarName := StagingContext.tarName targetName renameTo
  ([{ modified := now, filename := tarName, etag := "", size := members.length }],
   [(tarName, FileData.archive members)])

/-- BackupHandler.restore (backups.py lines 213-232): a fresh empty
temporary file is created at tmpDir joined with tmpName; download is
called with the LATEST sentinel, the temporary directory as localpath
and the temporary file name as as_filename; extract is then called on
the temporary file path and the resolved directory; leaving the
tempfile context deletes the temporary file, also when an exception
propagates.  Returns the propagated exception, if any, and the local
filesystem after the call. -/
def BackupHandler.restorePipeline (listing : List BucketObject)
    (blobs : List (String × FileData)) (world : List (FilePath1 × FileData))
    (tmpDir : FilePath1) (tmpName : String) (directory : FilePath1) :
    Option RestoreError × List (FilePath1 × FileData) :=
  let tmpPath := tmpDir ++ [tmpName]
  let w1 := writeFile world tmpPath (.raw [])
  match BackupStore.download listing blobs w1 LATEST tmpDir (some tmpName) with
  | (.error e, w2) => (some (.downloadFailed e), removeFile w2 tmpPath)
  | (.ok _, w2) =>
      match BackupHandler.extractRun w2 tmpPath directory with
      | .error e => (some e, removeFile w2 tmpPath)
      | .ok w3 => (none, removeFile w3 tmpPath)

/-- Modelled from the spec: download with the latest sentinel "selects
the filename of the most-recently-modified listed object (ties broken by
list order — last wins)".  This definition follows the words of the
spec, for comparison with the resolution the source implements. -/
def specLatestFilename (listing : List BucketObject) : Option String :=
  (listing.foldl
    (fun acc o =>
      match acc with
      | none => some o
      | some b => if b.modified ≤ o.modified then some o else some b)
    none).map (fun o => o.filename)

example : globMatchEntry "*" "f.txt" = true := by decide
example : globMatchEntry "*" ".hidden" = false := by decide
example : globMatchEntry "*.txt" "a.txt" = true := by decide
example : globMatchEntry "*.txt" "b.log" = false := by decide
example : specLatestFilename [⟨5, "new", "", 0⟩, ⟨3, "old", "", 0⟩] = some "new" := by rfl

/-! Helper lemmas shared by the claim theorems. -/

theorem ordered_perm (l : List BucketObject) : (Collection.ordered l).Perm l :=
  List.perm_insertionSort modGE l

theorem ordered_sorted (l : List BucketObject) : List.Sorted modGE (Collection.ordered l) :=
  List.sorted_insertionSort modGE l

theorem mem_ordered {l : List BucketObject} {x : BucketObject} :
    x ∈ Collection.ordered l ↔ x ∈ l :=
  (ordered_perm l).mem_iff

theorem length_filter_ordered (l : List BucketObject) (q : BucketObject → Bool) :
    ((Collection.ordered l).filter q).length = (l.filter q).length :=
  ((ordered_perm l).filter q).length_eq

theorem mem_concatBatches {f : String → List BucketObject} {x : BucketObject}
    {p : String} {ps : List String} (hp : p ∈ ps) (hx : x ∈ f p) :
    x ∈ concatBatches f ps := by
  induction ps with
  | nil => cases hp
  | cons q qs ih =>
      rcases List.mem_cons.mp hp with hp | hp
      · exact List.mem_append.mpr (Or.inl (hp ▸ hx))
      · exact List.mem_append.mpr (Or.inr (ih hp))

theorem of_mem_concatBatches {f : String → List BucketObject} {x : BucketObject}
    {ps : List String} (hx : x ∈ concatBatches f ps) : ∃ p ∈ ps, x ∈ f p := by
  induction ps with
  | nil => cases hx
  | cons q qs ih =>
      rcases List.mem_append.mp hx with h | h
      · exact ⟨q, List.mem_cons_self q qs, h⟩
      · rcases ih h with ⟨p, hp, hfp⟩
        exact ⟨p, List.mem_cons_of_mem q hp, hfp⟩

theorem concatBatches_eq_nil {f : String → List BucketObject} {ps : List String}
    (h : ∀ p ∈ ps, f p = []) : concatBatches f ps = [] := by
  induction ps with
  | nil => rfl
  | cons q qs ih =>
      show f q ++ concatBatches f qs = []
      rw [h q (List.mem_cons_self q qs), ih (fun p hp => h p (List.mem_cons_of_mem q hp))]
      rfl

theorem pathIsUnder_refl (p : FilePath1) : pathIsUnder p p = true := by
  induction p with
  | nil => rfl
  | cons a as ih => simp [pathIsUnder, ih]

/-- Claim C6: against a store whose listing has zero objects, download
with the latest sentinel raises the empty-store error (the
EnvironmentError of backups.py line 385) and performs no filesystem
write: the local file map is returned unchanged. -/
theorem download_empty_store_error_no_write {β : Type} (blobs : List (String × β))
    (world : List (FilePath1 × β)) (localpath : FilePath1) (asFilename : Option String) :
    BackupStore.download [] blobs world LATEST localpath asFilename =
      (.error .emptyStore, world) := rfl

/-- Claim C5: for every backup call and every combination of staging,
compression and upload outcomes, after the call returns or raises no
path at or under the workspace directory created by that call remains
on disk; in particular the workspace directory itself is gone. -/
theorem backup_workspace_always_removed (fsPaths : List FilePath1)
    (tmpdir : FilePath1) (dirName : String) (stagedRel : List FilePath1)
    (tarName : String) (stageErr compressErr uploadErr : Option String) :
    ((BackupHandler.backupFs fsPaths tmpdir dirName stagedRel tarName
        stageErr compressErr uploadErr).fsPaths.all
      (fun q => !(pathIsUnder (tmpdir ++ [dirName]) q))) = true ∧
    (tmpdir ++ [dirName]) ∉ (BackupHandler.backupFs fsPaths tmpdir dirName
        stagedRel tarName stageErr compressErr uploadErr).fsPaths := by
  constructor
  · rw [List.all_eq_true]
    intro q hq
    exact (List.mem_filter.mp hq).2
  · intro h
    have h2 := (List.mem_filter.mp h).2
    rw [pathIsUnder_refl] at h2
    cases h2

/-- Claim C9, counterexample: the orchestrator prune does open a staging
workspace; at a concrete input the set of directories created by the
call is non-empty, refuting the claim that no temporary directory is
created. -/
theorem prune_creates_workspace_dir :
    (BackupHandler.pruneRun [] ["tmp"] "123456789" [] 5 defaultPatterns).1.created ≠ [] := by
  decide

/-- Claim C9, amended: the orchestrator prune delegates to the pruning
policy of the store, and it does open a staging workspace; it creates
one temporary directory, never uses it, removes it before returning, so
provided the random workspace name is fresh the local filesystem is
unchanged when the call returns. -/
theorem prune_delegates_and_leaves_fs_unchanged (fsPaths : List FilePath1)
    (tmpdir : FilePath1) (dirName : String) (listing : List BucketObject)
    (retain : Nat) (patterns : List String)
    (hfresh : ∀ q ∈ fsPaths, pathIsUnder (tmpdir ++ [dirName]) q = false) :
    (BackupHandler.pruneRun fsPaths tmpdir dirName listing retain patterns).1.fsPaths = fsPaths ∧
    (BackupHandler.pruneRun fsPaths tmpdir dirName listing retain patterns).1.created =
      [tmpdir ++ [dirName]] ∧
    (BackupHandler.pruneRun fsPaths tmpdir dirName listing retain patterns).1.err = none ∧
    (BackupHandler.pruneRun fsPaths tmpdir dirName listing retain patterns).2 =
      BackupStore.applyPruneBucket listing retain patterns := by
  refine ⟨?_, rfl, rfl, rfl⟩
  simp only [BackupHandler.pruneRun, withStagingContext, shutilRmtree]
  rw [List.filter_cons]
  simp only [pathIsUnder_refl, Bool.not_true, Bool.false_eq_true, if_false]
  exact List.filter_eq_self.mpr (fun a ha => by simp [hfresh a ha])

/-- Claim C9 witness: the amended theorem at a concrete fresh state. -/
theorem prune_delegates_and_leaves_fs_unchanged_witness :
    (BackupHandler.pruneRun [["data"]] ["tmp"] "555" [] 5 defaultPatterns).1.fsPaths =
      [["data"]] ∧
    (BackupHandler.pruneRun [["data"]] ["tmp"] "555" [] 5 defaultPatterns).1.created =
      [["tmp", "555"]] ∧
    (BackupHandler.pruneRun [["data"]] ["tmp"] "555" [] 5 defaultPatterns).1.err = none ∧
    (BackupHandler.pruneRun [["data"]] ["tmp"] "555" [] 5 defaultPatterns).2 =
      BackupStore.applyPruneBucket [] 5 defaultPatterns :=
  prune_delegates_and_leaves_fs_unchanged [["data"]] ["tmp"] "555" [] 5 defaultPatterns
    (by decide)

/-- Claim C4, counterexample: at a concrete state where the restore
target is a directory (not an existing regular file), extract resolves
the extraction directory to the parent of the target, not to the target
itself as the claim states. -/
theorem extract_into_target_dir_refuted :
    BackupHandler.extractDirResolve [] ["data", "restore"] = ["data"] ∧
    ["data"] ≠ ["data", "restore"] := by
  constructor
  · rfl
  · decide

/-- Claim C4, amended: the tar contents are extracted into the parent
directory (the dirname) of the resolved target path; only when the
target path is an existing regular file are they extracted into that
path itself. -/
theorem extract_dir_resolution (world : List (FilePath1 × FileData))
    (directory : FilePath1) :
    (isFile world directory = false →
      BackupHandler.extractDirResolve world directory = directory.dropLast) ∧
    (isFile world directory = true →
      BackupHandler.extractDirResolve world directory = directory) := by
  constructor <;> intro h <;> simp [BackupHandler.extractDirResolve, h]

/-- Claim C4 witness: the amended resolution at concrete inputs, one per
branch. -/
theorem extract_dir_resolution_witness :
    BackupHandler.extractDirResolve [] ["data", "restore"] = ["data"] ∧
    BackupHandler.extractDirResolve [(["f"], FileData.raw [])] ["f"] = ["f"] :=
  ⟨(extract_dir_resolution [] ["data", "restore"]).1 (by rfl),
   (extract_dir_resolution [(["f"], FileData.raw [])] ["f"]).2 (by rfl)⟩

/-- Claim C2, counterexample: a two-object listing whose first object is
the most recently modified.  The source resolution for the latest
sentinel takes the last element of the raw listing without sorting, so
it returns the older filename, while the resolution the claim states
(most-recently-modified, ties to the later list position) returns the
newer one. -/
theorem download_latest_ignores_timestamps :
    BackupStore.resolveDownloadFilename
      [⟨5, "new.tar.gz", "", 1⟩, ⟨3, "old.tar.gz", "", 1⟩] LATEST none = .ok "old.tar.gz" ∧
    specLatestFilename [⟨5, "new.tar.gz", "", 1⟩, ⟨3, "old.tar.gz", "", 1⟩] =
      some "new.tar.gz" ∧
    "old.tar.gz" ≠ "new.tar.gz" :=
  ⟨rfl, rfl, by decide⟩

/-- Claim C2, amended: for every store whose listing is non-empty,
download with the latest sentinel resolves to the filename of the last
object in the raw listing order, regardless of the last-modified
timestamps (this is the most-recently-modified object only when the
listing happens to be ordered oldest first), and downloads the object
stored under that filename to localpath. -/
theorem download_latest_resolves_last_listed {β : Type} (listing : List BucketObject)
    (blobs : List (String × β)) (world : List (FilePath1 × β))
    (localpath : FilePath1) (asFilename : Option String) (f : String) (b : β)
    (hf : (Collection.filenames listing).getLast? = some f)
    (hb : assocLookup blobs f = some b) :
    BackupStore.resolveDownloadFilename listing LATEST asFilename = .ok f ∧
    BackupStore.download listing blobs world LATEST localpath asFilename =
      (.ok (localpath ++ [f]), writeFile world (localpath ++ [f]) b) := by
  have h1 : BackupStore.resolveDownloadFilename listing LATEST asFilename = .ok f := by
    simp [BackupStore.resolveDownloadFilename, hf]
  refine ⟨h1, ?_⟩
  simp [BackupStore.download, h1, hb]

/-- Claim C2 witness: the amended resolution at a concrete listing whose
last object is not the most recently modified. -/
theorem download_latest_resolves_last_listed_witness :
    BackupStore.resolveDownloadFilename
      [⟨5, "new.tar.gz", "", 1⟩, ⟨3, "old.tar.gz", "", 1⟩] LATEST none = .ok "old.tar.gz" ∧
    BackupStore.download
      [⟨5, "new.tar.gz", "", 1⟩, ⟨3, "old.tar.gz", "", 1⟩]
      [("new.tar.gz", (7 : Nat)), ("old.tar.gz", (9 : Nat))] [] LATEST ["tmp"] none =
      (.ok (["tmp"] ++ ["old.tar.gz"]), writeFile [] (["tmp"] ++ ["old.tar.gz"]) 9) :=
  download_latest_resolves_last_listed
    [⟨5, "new.tar.gz", "", 1⟩, ⟨3, "old.tar.gz", "", 1⟩]
    [("new.tar.gz", (7 : Nat)), ("old.tar.gz", (9 : Nat))] [] ["tmp"] none
    "old.tar.gz" 9 (by rfl) (by rfl)

/-- Claim C10: upload triggers the post-upload pruning step only when
the configured retain count is truthy, so with a configured retain count
of zero (or none) the uploaded object is simply appended and no pruning
runs; with a positive configured count the bucket is pruned with it; and
yet a direct prune call with retain zero marks every object whose
filename contains a category pattern for deletion. -/
theorem upload_retain_zero_never_prunes (ps : List String) (l : List BucketObject)
    (o : BucketObject) (n : Nat) :
    BackupStore.upload (some 0) ps l o = l ++ [o] ∧
    BackupStore.upload none ps l o = l ++ [o] ∧
    BackupStore.upload (some (n + 1)) ps l o =
      BackupStore.applyPruneBucket (l ++ [o]) (n + 1) ps ∧
    (∀ obj ∈ l, (∃ p ∈ ps, strContainsSub obj.filename p = true) →
      obj ∈ BackupStore.pruneBucketDeletions l 0 ps) := by
  refine ⟨rfl, rfl, by simp [BackupStore.upload, pyTruthyNat], ?_⟩
  rintro obj hobj ⟨p, hp, hmatch⟩
  have hmem : obj ∈ Collection.ordered l := mem_ordered.mpr hobj
  have hfil : obj ∈ (Collection.ordered l).filter
      (fun x => strContainsSub x.filename p) :=
    List.mem_filter.mpr ⟨hmem, hmatch⟩
  have hlen : 0 < ((Collection.ordered l).filter
      (fun x => strContainsSub x.filename p)).length :=
    List.length_pos.mpr (List.ne_nil_of_mem hfil)
  have hover : obj ∈ prunePatternOverflow (Collection.ordered l) 0 p := by
    simp only [prunePatternOverflow]
    rw [if_pos hlen, List.drop_zero]
    exact hfil
  have hne : (Collection.ordered l).isEmpty = false := by
    cases h : Collection.ordered l with
    | nil => rw [h] at hmem; cases hmem
    | cons a as => rfl
  simp only [BackupStore.pruneBucketDeletions, hne, Bool.false_eq_true, if_false]
  exact mem_concatBatches hp hover

/-- Claim C10 witness: a store with one matching object, configured
retain zero: upload appends without pruning, while a direct prune with
retain zero deletes the matching object. -/
theorem upload_retain_zero_never_prunes_witness :
    BackupStore.upload (some 0) defaultPatterns [⟨3, "a.tar.gz", "", 0⟩] ⟨9, "b.tgz", "", 0⟩ =
      [⟨3, "a.tar.gz", "", 0⟩] ++ [⟨9, "b.tgz", "", 0⟩] ∧
    (⟨3, "a.tar.gz", "", 0⟩ : BucketObject) ∈
      BackupStore.pruneBucketDeletions [⟨3, "a.tar.gz", "", 0⟩] 0 defaultPatterns :=
  ⟨(upload_retain_zero_never_prunes defaultPatterns [⟨3, "a.tar.gz", "", 0⟩]
      ⟨9, "b.tgz", "", 0⟩ 0).1,
   (upload_retain_zero_never_prunes defaultPatterns [⟨3, "a.tar.gz", "", 0⟩]
      ⟨9, "b.tgz", "", 0⟩ 0).2.2.2 ⟨3, "a.tar.gz", "", 0⟩ (by decide)
      ⟨"tar.gz", by decide, by decide⟩⟩

theorem isEmpty_false_of_mem {α : Type} {x : α} {l : List α} (h : x ∈ l) :
    l.isEmpty = false := by
  cases l with
  | nil => cases h
  | cons a as => rfl

theorem of_mem_prunePatternOverflow {objs : List BucketObject} {r : Nat} {p : String}
    {x : BucketObject} (hx : x ∈ prunePatternOverflow objs r p) :
    x ∈ objs ∧ strContainsSub x.filename p = true := by
  simp only [prunePatternOverflow] at hx
  by_cases h : (objs.filter (fun o => strContainsSub o.filename p)).length > r
  · rw [if_pos h] at hx
    have hm : x ∈ objs.filter (fun o => strContainsSub o.filename p) :=
      List.drop_subset r _ hx
    exact List.mem_filter.mp hm
  · rw [if_neg h] at hx
    cases hx

theorem pruneBucketDeletions_of_nonempty (l : List BucketObject) (r : Nat)
    (ps : List String) (h : (Collection.ordered l).isEmpty = false) :
    BackupStore.pruneBucketDeletions l r ps =
      concatBatches (prunePatternOverflow (Collection.ordered l) r) ps := by
  simp [BackupStore.pruneBucketDeletions, h]

theorem mem_deletions_of_mem_drop (l : List BucketObject) (r : Nat) (ps : List String)
    (p : String) (hp : p ∈ ps)
    (hover : r < ((Collection.ordered l).filter (fun o => strContainsSub o.filename p)).length)
    {x : BucketObject}
    (hx : x ∈ ((Collection.ordered l).filter (fun o => strContainsSub o.filename p)).drop r) :
    x ∈ BackupStore.pruneBucketDeletions l r ps := by
  have hxm : x ∈ (Collection.ordered l).filter (fun o => strContainsSub o.filename p) :=
    List.drop_subset r _ hx
  have hne : (Collection.ordered l).isEmpty = false :=
    isEmpty_false_of_mem (List.mem_of_mem_filter hxm)
  rw [pruneBucketDeletions_of_nonempty l r ps hne]
  refine mem_concatBatches hp ?_
  simp only [prunePatternOverflow]
  rw [if_pos hover]
  exact hx

/-- Claim C7: an object of the listing whose filename contains none of
the configured category patterns is never named in a delete batch of
prune, for every retain count including zero; and a category pattern
with no matching objects contributes an empty delete batch. -/
theorem prune_never_deletes_unmatched (l : List BucketObject) (r : Nat)
    (ps : List String) :
    (∀ obj ∈ l, (∀ p ∈ ps, strContainsSub obj.filename p = false) →
      obj.filename ∉ Collection.filenames (BackupStore.pruneBucketDeletions l r ps)) ∧
    (∀ p, (Collection.ordered l).filter (fun o => strContainsSub o.filename p) = [] →
      prunePatternOverflow (Collection.ordered l) r p = []) := by
  constructor
  · intro obj _ hnone hmem
    rcases List.mem_map.mp hmem with ⟨x, hxdel, hxeq⟩
    by_cases hE : (Collection.ordered l).isEmpty
    · rw [BackupStore.pruneBucketDeletions, if_pos hE] at hxdel
      cases hxdel
    · rw [pruneBucketDeletions_of_nonempty l r ps (by simpa using hE)] at hxdel
      rcases of_mem_concatBatches hxdel with ⟨p, hp, hxover⟩
      have hmatch := (of_mem_prunePatternOverflow hxover).2
      rw [hxeq] at hmatch
      rw [hnone p hp] at hmatch
      cases hmatch
  · intro p hempty
    simp only [prunePatternOverflow]
    rw [hempty]
    simp

/-- Claim C7 witness: a log file matching no pattern survives a prune
with retain zero, and the deb pattern with no matches contributes an
empty batch. -/
theorem prune_never_deletes_unmatched_witness :
    "x.log" ∉ Collection.filenames (BackupStore.pruneBucketDeletions
      [⟨1, "x.log", "", 0⟩, ⟨2, "a.tar.gz", "", 0⟩] 0 defaultPatterns) ∧
    prunePatternOverflow
      (Collection.ordered [⟨1, "x.log", "", 0⟩, ⟨2, "a.tar.gz", "", 0⟩]) 0 "deb" = [] :=
  ⟨(prune_never_deletes_unmatched [⟨1, "x.log", "", 0⟩, ⟨2, "a.tar.gz", "", 0⟩]
      0 defaultPatterns).1 ⟨1, "x.log", "", 0⟩ (by decide) (by decide),
   (prune_never_deletes_unmatched [⟨1, "x.log", "", 0⟩, ⟨2, "a.tar.gz", "", 0⟩]
      0 defaultPatterns).2 "deb" (by decide)⟩

/-- Claim C3: for every listing and every configured category pattern
whose matching objects outnumber the retain count, the delete batch of
that pattern is exactly the tail after the first retain entries of the
matching objects sorted most-recently-modified first (so the retain most
recent are kept), every object of that batch is in the deletions of the
prune call, and every deleted object is no newer than every kept one. -/
theorem prune_deletes_exactly_oldest_overflow (l : List BucketObject) (r : Nat)
    (ps : List String) (p : String) (hp : p ∈ ps)
    (hover : r < ((Collection.ordered l).filter (fun o => strContainsSub o.filename p)).length) :
    prunePatternOverflow (Collection.ordered l) r p =
      ((Collection.ordered l).filter (fun o => strContainsSub o.filename p)).drop r ∧
    (∀ x ∈ ((Collection.ordered l).filter (fun o => strContainsSub o.filename p)).drop r,
      x ∈ BackupStore.pruneBucketDeletions l r ps) ∧
    (∀ x ∈ ((Collection.ordered l).filter (fun o => strContainsSub o.filename p)).drop r,
      ∀ y ∈ ((Collection.ordered l).filter (fun o => strContainsSub o.filename p)).take r,
      x.modified ≤ y.modified) := by
  refine ⟨?_, ?_, ?_⟩
  · simp only [prunePatternOverflow]
    rw [if_pos hover]
  · intro x hx
    exact mem_deletions_of_mem_drop l r ps p hp hover hx
  · intro x hx y hy
    have hsf : List.Pairwise modGE
        ((Collection.ordered l).filter (fun o => strContainsSub o.filename p)) :=
      (ordered_sorted l).filter _
    have hsplit : List.Pairwise modGE
        (((Collection.ordered l).filter (fun o => strContainsSub o.filename p)).take r ++
         ((Collection.ordered l).filter (fun o => strContainsSub o.filename p)).drop r) := by
      rw [List.take_append_drop]
      exact hsf
    exact (List.pairwise_append.mp hsplit).2.2 y hy x hx

/-- Claim C3 witness: three tar.gz objects with retain one; the batch is
the two oldest, each batch member is in the deletions of the prune call,
each is no newer than the kept newest. -/
theorem prune_deletes_exactly_oldest_overflow_witness :
    prunePatternOverflow (Collection.ordered
      [⟨3, "a.tar.gz", "", 0⟩, ⟨7, "b.tar.gz", "", 0⟩, ⟨5, "c.tar.gz", "", 0⟩]) 1 "tar.gz" =
      ((Collection.ordered
        [⟨3, "a.tar.gz", "", 0⟩, ⟨7, "b.tar.gz", "", 0⟩, ⟨5, "c.tar.gz", "", 0⟩]).filter
          (fun o => strContainsSub o.filename "tar.gz")).drop 1 :=
  (prune_deletes_exactly_oldest_overflow
    [⟨3, "a.tar.gz", "", 0⟩, ⟨7, "b.tar.gz", "", 0⟩, ⟨5, "c.tar.gz", "", 0⟩]
    1 defaultPatterns "tar.gz" (by decide) (by decide)).1

theorem prunePatternOverflow_eq_nil_of_le {objs : List BucketObject} {r : Nat}
    {p : String}
    (h : (objs.filter (fun o => strContainsSub o.filename p)).length ≤ r) :
    prunePatternOverflow objs r p = [] := by
  simp only [prunePatternOverflow]
  rw [if_neg (not_lt.mpr h)]

theorem filter_matching_remaining_le (l : List BucketObject) (r : Nat)
    (ps : List String) (p : String) (hp : p ∈ ps) :
    ((l.filter (fun o =>
        !((Collection.filenames (BackupStore.pruneBucketDeletions l r ps)).contains
          o.filename))).filter
      (fun o => strContainsSub o.filename p)).length ≤ r := by
  set ks := Collection.filenames (BackupStore.pruneBucketDeletions l r ps) with hks
  set nk : BucketObject → Bool := fun o => !(ks.contains o.filename) with hnk
  set cp : BucketObject → Bool := fun o => strContainsSub o.filename p with hcp
  set m := (Collection.ordered l).filter cp with hm
  have e2 : (l.filter nk).filter cp = l.filter (fun a => cp a && nk a) :=
    List.filter_filter nk l
  have e3 : (l.filter (fun a => cp a && nk a)).length =
      ((Collection.ordered l).filter (fun a => cp a && nk a)).length :=
    (length_filter_ordered l _).symm
  have e4 : (Collection.ordered l).filter (fun a => cp a && nk a) =
      (Collection.ordered l).filter (fun a => nk a && cp a) :=
    List.filter_congr (fun a _ => Bool.and_comm (cp a) (nk a))
  have e5 : m.filter nk = (Collection.ordered l).filter (fun a => nk a && cp a) :=
    List.filter_filter cp (Collection.ordered l)
  have hchain : ((l.filter nk).filter cp).length = (m.filter nk).length := by
    rw [e2, e3, e4, ← e5]
  rw [hchain]
  by_cases hlen : m.length ≤ r
  · exact le_trans (List.length_filter_le nk m) hlen
  · have hover : r < m.length := not_le.mp hlen
    have hdropnil : (m.drop r).filter nk = [] := by
      rw [List.filter_eq_nil_iff]
      intro x hx
      have hdel : x ∈ BackupStore.pruneBucketDeletions l r ps :=
        mem_deletions_of_mem_drop l r ps p hp hover hx
      have hkmem : x.filename ∈ ks := List.mem_map_of_mem (fun o => o.filename) hdel
      rw [hnk]
      simp [hkmem]
    calc (m.filter nk).length
        = ((m.take r ++ m.drop r).filter nk).length := by rw [List.take_append_drop]
      _ = ((m.take r).filter nk).length + ((m.drop r).filter nk).length := by
          rw [List.filter_append, List.length_append]
      _ = ((m.take r).filter nk).length := by rw [hdropnil]; simp
      _ ≤ (m.take r).length := List.length_filter_le nk (m.take r)
      _ ≤ r := List.length_take_le r m

/-- Claim C8: prune is idempotent.  After applying the deletions of one
prune call to the bucket, a second prune call with the same retain count
and patterns and no uploads in between computes an empty deletion set:
it issues no delete call. -/
theorem prune_idempotent (l : List BucketObject) (r : Nat) (ps : List String) :
    BackupStore.pruneBucketDeletions (BackupStore.applyPruneBucket l r ps) r ps = [] := by
  have happly : BackupStore.applyPruneBucket l r ps =
      l.filter (fun o =>
        !((Collection.filenames (BackupStore.pruneBucketDeletions l r ps)).contains
          o.filename)) := rfl
  rw [happly]
  by_cases hE : (Collection.ordered (l.filter (fun o =>
      !((Collection.filenames (BackupStore.pruneBucketDeletions l r ps)).contains
        o.filename)))).isEmpty
  · rw [BackupStore.pruneBucketDeletions, if_pos hE]
  · rw [pruneBucketDeletions_of_nonempty _ r ps (by simpa using hE)]
    apply concatBatches_eq_nil
    intro p hp
    apply prunePatternOverflow_eq_nil_of_le
    rw [length_filter_ordered]
    exact filter_matching_remaining_le l r ps p hp

/-- Claim C1: evaluation of the source at a failing input.  Back up the
directory data/app holding the single file f.txt into an empty store,
then restore from the latest object into data/app with the fresh
temporary file tmp/tmpabc.  The file is staged and archived, but restore
raises a tar read error: download with the latest sentinel ignores
as_filename and writes the archive to tmp/app.tgz, while extract opens
the still empty temporary file tmp/tmpabc.  No file reappears under the
restore target, and the downloaded archive is left behind in the
temporary directory, so the claimed round trip fails on the code. -/
theorem backup_restore_roundtrip_fails :
    (["app", "f.txt"], ([1, 2, 3] : Bytes)) ∈
      StagingContext.compressMembers "app"
        (StagingContext.stageSelect [(["f.txt"], [1, 2, 3])] none) ∧
    (BackupHandler.restorePipeline
      (BackupHandler.backupPipeline ["data", "app"] [(["f.txt"], [1, 2, 3])] none none 100).1
      (BackupHandler.backupPipeline ["data", "app"] [(["f.txt"], [1, 2, 3])] none none 100).2
      [] ["tmp"] "tmpabc" ["data", "app"]).1 = some .tarOpenFailed ∧
    assocLookup
      (BackupHandler.restorePipeline
        (BackupHandler.backupPipeline ["data", "app"] [(["f.txt"], [1, 2, 3])] none none 100).1
        (BackupHandler.backupPipeline ["data", "app"] [(["f.txt"], [1, 2, 3])] none none 100).2
        [] ["tmp"] "tmpabc" ["data", "app"]).2 ["data", "app", "f.txt"] = none ∧
    (BackupHandler.restorePipeline
      (BackupHandler.backupPipeline ["data", "app"] [(["f.txt"], [1, 2, 3])] none none 100).1
      (BackupHandler.backupPipeline ["data", "app"] [(["f.txt"], [1, 2, 3])] none none 100).2
      [] ["tmp"] "tmpabc" ["data", "app"]).2 =
      [(["tmp", "app.tgz"], FileData.archive [(["app", "f.txt"], [1, 2, 3])])] :=
  ⟨by decide, by rfl, by rfl, by rfl⟩
